import Mathlib

/-!
Verification of the quotes scraper `app/parse.py`.

Shallow embedding: the HTML transport (`requests` + `BeautifulSoup`) is
modelled as an oracle `fetch : String → Option Soup` mapping an absolute
URL to the parsed document (`none` models a fetch failure, matching
`get_soup` returning `None`).  A `Soup` records exactly the query results
the program reads from a document: the `.quote` blocks, the `li.next a`
href, and the `.author-description` text.  Every `get_soup` call made by
the program is logged as a `FetchEv`, so fetch-count properties become
statements about the event log.  Python exceptions (the `AttributeError`
raised by `.get_text` on a missing `.text` / `.author` element) are
modelled by `Except`; the `while current_page:` loop is given explicit
fuel, with a distinguished `fuelOut` outcome so that termination claims
are claims about sufficiency of fuel.
-/

namespace Scrape

/-- `BASE_URL` constant of the source. -/
def BASE_URL : String := "https://quotes.toscrape.com"

/-- `p` is a prefix of `s` (computable replacement for
`String.startsWith`, which the kernel cannot reduce). -/
def strStarts (s p : String) : Bool := p.data.isPrefixOf s.data

/-- Models `urllib.parse.urljoin(base, rel)` on the shapes of input the
program produces: an absolute URL is kept as is, an absolute path is
appended to the base origin, any other relative reference is joined with
a single slash. -/
def urljoin (base rel : String) : String :=
  if strStarts rel "http://" || strStarts rel "https://" then rel
  else if strStarts rel "/" then base ++ rel
  else base ++ "/" ++ rel

/-- What the program reads from one `.quote` block:
`select_one(".text")` / `select_one(".author")` results (as their
stripped text, `none` when the element is absent), the stripped texts of
`select(".tag")` in document order, and the `href` of
`select_one("a[href*='/author/']")` when that anchor is present. -/
structure QuoteBlock where
  text : Option String
  author : Option String
  tags : List String
  aboutHref : Option String
  deriving DecidableEq

/-- What the program reads from one fetched document: the `.quote`
blocks in document order, the `href` of `select_one("li.next a")` when
that element is present, and the stripped text of
`select_one(".author-description")` when that element is present and
truthy. -/
structure Soup where
  quoteBlocks : List QuoteBlock
  nextHref : Option String
  authorDescription : Option String
  deriving DecidableEq

/-- The `Quote` dataclass of the source. -/
structure Quote where
  text : String
  author : String
  tags : List String
  deriving DecidableEq

/-- The `author_bio_cache` dictionary: association list from the raw
relative href (the cache key) to the biography text.  New entries are
consed on the front; lookups take the first hit, which matches dict
semantics because the program only inserts a key that is absent. -/
abbrev Cache := List (String × String)

/-- First-match lookup in the cache, the `bio_relative_url in cache`
test and `cache[bio_relative_url]` read of the source. -/
def lookupKey (k : String) : Cache → Option String
  | [] => none
  | (k', v) :: rest => if k = k' then some v else lookupKey k rest

/-- One `get_soup` invocation, as logged: a page fetch records the URL;
a bio fetch records the cache key that caused it and the URL. -/
inductive FetchEv where
  | page (url : String)
  | bio (key : String) (url : String)
  deriving DecidableEq

/-- `scrape_author_bio(bio_relative_url, cache)` of the source, returning
the biography, the updated cache, and the `get_soup` calls it made.
On a cache hit it returns the cached value with no fetch.  On a miss it
fetches `urljoin(BASE_URL, key)`; if the document arrives and has a
truthy `.author-description` element, its text is returned and cached;
otherwise (fetch failure, or element absent/empty) the empty string is
returned and nothing is cached. -/
def scrape_author_bio (fetch : String → Option Soup) (bio_relative_url : String)
    (cache : Cache) : String × Cache × List FetchEv :=
  match lookupKey bio_relative_url cache with
  | some v => (v, cache, [])
  | none =>
    let full_url := urljoin BASE_URL bio_relative_url
    match fetch full_url with
    | some soup =>
      match soup.authorDescription with
      | some t => (t, (bio_relative_url, t) :: cache, [.bio bio_relative_url full_url])
      | none => ("", cache, [.bio bio_relative_url full_url])
    | none => ("", cache, [.bio bio_relative_url full_url])

/-- The record built from a well-formed block: `Quote(text, author_name, tags)`. -/
def quoteOfBlock (b : QuoteBlock) : Quote :=
  ⟨b.text.getD "", b.author.getD "", b.tags⟩

/-- The body of `for block in quote_blocks:` in `main`.  Reading the
`.text` or `.author` element of a block that lacks it is
`None.get_text(...)`, an uncaught `AttributeError`: modelled as
`Except.error` carrying the log at the moment the exception is raised.
A well-formed block appends its `Quote` and, when the about-anchor is
present, calls `scrape_author_bio` with the raw href. -/
def processBlocks (fetch : String → Option Soup) :
    List QuoteBlock → List Quote → Cache → List FetchEv →
    Except (List FetchEv) (List Quote × Cache × List FetchEv)
  | [], qs, c, log => .ok (qs, c, log)
  | b :: bs, qs, c, log =>
    match b.text with
    | none => .error log
    | some t =>
      match b.author with
      | none => .error log
      | some a =>
        let qs' := qs ++ [⟨t, a, b.tags⟩]
        match b.aboutHref with
        | none => processBlocks fetch bs qs' c log
        | some rel =>
          let r := scrape_author_bio fetch rel c
          processBlocks fetch bs qs' r.2.1 (log ++ r.2.2)

/-- How one run of `main`'s page loop can end.  `done` is normal loop
exit (the cursor is `None`, or the empty string, which is falsy in
Python): the accumulated quotes are then written to CSV.  `fetchFail` is
the `if not soup: break` path: the loop stops, `get_soup` has printed an
error naming the failing URL, and the accumulated quotes are still
written.  `raised` is an uncaught `AttributeError` from a malformed
block: the run aborts and nothing is written.  `fuelOut` marks
insufficient fuel for the embedding, never a behaviour of the program. -/
inductive Outcome where
  | done (quotes : List Quote) (cache : Cache) (log : List FetchEv) (cursor : Option String)
  | fetchFail (quotes : List Quote) (cache : Cache) (log : List FetchEv) (failedUrl : String)
  | raised (log : List FetchEv)
  | fuelOut (quotes : List Quote) (cache : Cache) (log : List FetchEv) (cursor : Option String)
  deriving DecidableEq

/-- The `while current_page:` loop of `main`.  The cursor is
`none` for Python `None` and `some s` for the string `s`; the loop runs
only while the cursor is truthy (present and non-empty). -/
def crawlLoop (fetch : String → Option Soup) :
    Nat → Option String → List Quote → Cache → List FetchEv → Outcome
  | _, none, qs, c, log => .done qs c log none
  | 0, some s, qs, c, log =>
    if s = "" then .done qs c log (some "") else .fuelOut qs c log (some s)
  | fuel + 1, some s, qs, c, log =>
    if s = "" then .done qs c log (some "")
    else
      let url := urljoin BASE_URL s
      match fetch url with
      | none => .fetchFail qs c (log ++ [.page url]) url
      | some soup =>
        match processBlocks fetch soup.quoteBlocks qs c (log ++ [.page url]) with
        | .error elog => .raised elog
        | .ok (qs', c', log') => crawlLoop fetch fuel soup.nextHref qs' c' log'

/-- `main`: the crawl starts at `"/page/1/"` with empty accumulators. -/
def crawl (fetch : String → Option Soup) (fuel : Nat) : Outcome :=
  crawlLoop fetch fuel (some "/page/1/") [] [] []

/-- The full `get_soup` call log of an outcome. -/
def Outcome.log : Outcome → List FetchEv
  | .done _ _ log _ => log
  | .fetchFail _ _ log _ => log
  | .raised log => log
  | .fuelOut _ _ log _ => log

/-- The URLs of the page fetches in a log, in order. -/
def pageEvents : List FetchEv → List String
  | [] => []
  | .page u :: l => u :: pageEvents l
  | .bio _ _ :: l => pageEvents l

/-- The cache keys of the bio fetches in a log, in order. -/
def bioKeys : List FetchEv → List String
  | [] => []
  | .page _ :: l => bioKeys l
  | .bio k _ :: l => k :: bioKeys l

/-- The URLs of the bio fetches in a log, in order. -/
def bioUrls : List FetchEv → List String
  | [] => []
  | .page _ :: l => bioUrls l
  | .bio _ u :: l => u :: bioUrls l

/-- A block whose required `.text` and `.author` elements are both
present (extraction does not raise on it). -/
def wellFormedBlock (b : QuoteBlock) : Prop :=
  b.text.isSome ∧ b.author.isSome

instance (b : QuoteBlock) : Decidable (wellFormedBlock b) := by
  unfold wellFormedBlock; infer_instance

/-- The records extracted from one document's blocks. -/
def quotesOf (d : Soup) : List Quote :=
  d.quoteBlocks.map quoteOfBlock

/-- Quotes of pages `j, j+1, …, j+n-1` of a chain of documents. -/
def chainQuotes (docs : Nat → Soup) (j : Nat) : Nat → List Quote
  | 0 => []
  | n + 1 => quotesOf (docs j) ++ chainQuotes docs (j + 1) n

/-- Absolute URLs of pages `j, j+1, …, j+n-1` of a chain of references. -/
def chainUrls (ref : Nat → String) (j : Nat) : Nat → List String
  | 0 => []
  | n + 1 => urljoin BASE_URL (ref j) :: chainUrls ref (j + 1) n

/-- An oracle on which every fetch succeeds and every document carries a
truthy author-description element: under it every first resolution of a
key succeeds, the regime in which the single-flight property holds. -/
def goodOracle (fetch : String → Option Soup) : Prop :=
  ∀ u, ∃ d t, fetch u = some d ∧ d.authorDescription = some t

/-- The cache/log invariant of a run under a `goodOracle`: no key has
been bio-fetched twice, and every bio-fetched key is in the cache. -/
def cacheInv (c : Cache) (log : List FetchEv) : Prop :=
  (bioKeys log).Nodup ∧ ∀ k ∈ bioKeys log, (lookupKey k c).isSome

/-- `cacheInv` transported through a `processBlocks` result: an
`AttributeError` keeps the no-duplicate property of the log it aborts
with. -/
def pbInv : Except (List FetchEv) (List Quote × Cache × List FetchEv) → Prop
  | .error elog => (bioKeys elog).Nodup
  | .ok (_, c', log') => cacheInv c' log'

/-! Concrete oracles used by counterexamples and witnesses. -/

/-- A single page whose two blocks both reference `"/author/Dup"`; the
author's detail page itself fails to fetch. -/
def dupPage : Soup :=
  ⟨[⟨some "q1", some "A", [], some "/author/Dup"⟩,
    ⟨some "q2", some "A", [], some "/author/Dup"⟩], none, none⟩

/-- Oracle for the C1 counterexample: serves `dupPage` as page 1 and
fails every other fetch (in particular the bio fetch). -/
def fetchC1 (u : String) : Option Soup :=
  if u = urljoin BASE_URL "/page/1/" then some dupPage else none

/-- Oracle for the C1 witness: every URL yields a document with no
blocks, no next link and a truthy author-description. -/
def fetchW1 (_ : String) : Option Soup := some ⟨[], none, some "bio"⟩

/-- A page of three blocks whose second lacks the `.text` element. -/
def malformedPage : Soup :=
  ⟨[⟨some "Q1", some "A1", ["t"], none⟩, ⟨none, some "A2", [], none⟩,
    ⟨some "Q3", some "A3", [], none⟩], none, none⟩

/-- Oracle for the C3 counterexample: serves `malformedPage` as page 1. -/
def fetchC3 (u : String) : Option Soup :=
  if u = urljoin BASE_URL "/page/1/" then some malformedPage else none

/-- Oracle for the C5 witness: every URL yields a document whose
author-description reads `"B5"`. -/
def fetchW5 (_ : String) : Option Soup := some ⟨[], none, some "B5"⟩

/-- Oracle for the C6 witness: every fetch fails. -/
def fetchW6 (_ : String) : Option Soup := none

/-- Oracle for the C9 witness: the same author's detail page with and
without a trailing slash, both serving the same biography text. -/
def fetchW9 (u : String) : Option Soup :=
  if u = urljoin BASE_URL "/author/Albert-Einstein" then some ⟨[], none, some "bioA"⟩
  else if u = urljoin BASE_URL "/author/Albert-Einstein/" then some ⟨[], none, some "bioA"⟩
  else none

/-- Page for the C8 witness: one well-formed block and a `li.next a`
element whose href is the empty string. -/
def pageW8 : Soup := ⟨[⟨some "q", some "a", [], none⟩], some "", none⟩

/-- Oracle for the C8 witness: serves `pageW8` as page 1. -/
def fetchW8 (u : String) : Option Soup :=
  if u = urljoin BASE_URL "/page/1/" then some pageW8 else none

/-- Page references for the C4 witness chain of length 2. -/
def refW4 (j : Nat) : String := if j = 1 then "/page/1/" else "/page/2/"

/-- Documents for the C4 witness chain: page 1 carries one block and the
next reference, page 2 carries none. -/
def docsW4 (j : Nat) : Soup :=
  if j = 1 then ⟨[⟨some "wq", some "wa", ["wt"], none⟩], some "/page/2/", none⟩
  else ⟨[], none, none⟩

/-- Oracle for the C4 witness: serves the two chain pages. -/
def fetchW4 (u : String) : Option Soup :=
  if u = urljoin BASE_URL "/page/1/" then some (docsW4 1)
  else if u = urljoin BASE_URL "/page/2/" then some (docsW4 2)
  else none

/-- Page references for the C2 witness chain. -/
def refW2 (j : Nat) : String := if j = 1 then "/page/1/" else "/page/2/"

/-- Documents for the C2 witness chain: every page carries one block and
points at page 2. -/
def docsW2 (_ : Nat) : Soup :=
  ⟨[⟨some "q2w", some "a2w", [], none⟩], some "/page/2/", none⟩

/-- Oracle for the C2 witness: page 1 is served, page 2 fails to
fetch. -/
def fetchW2 (u : String) : Option Soup :=
  if u = urljoin BASE_URL "/page/1/" then some (docsW2 1) else none

end Scrape

namespace Scrape

/-! ### Cache and `scrape_author_bio` lemmas -/

theorem lookupKey_cons_self (k v : String) (c : Cache) :
    lookupKey k ((k, v) :: c) = some v := by
  simp [lookupKey]

theorem lookupKey_cons_of_ne {k k' : String} (v : String) (c : Cache) (h : k' ≠ k) :
    lookupKey k' ((k, v) :: c) = lookupKey k' c := by
  simp [lookupKey, h]

theorem sab_of_hit {fetch : String → Option Soup} {k : String} {c : Cache} {v : String}
    (h : lookupKey k c = some v) :
    scrape_author_bio fetch k c = (v, c, []) := by
  simp [scrape_author_bio, h]

theorem sab_of_miss_fail {fetch : String → Option Soup} {k : String} {c : Cache}
    (h : lookupKey k c = none) (hf : fetch (urljoin BASE_URL k) = none) :
    scrape_author_bio fetch k c = ("", c, [.bio k (urljoin BASE_URL k)]) := by
  simp [scrape_author_bio, h, hf]

theorem sab_of_miss_nodesc {fetch : String → Option Soup} {k : String} {c : Cache}
    {d : Soup} (h : lookupKey k c = none) (hf : fetch (urljoin BASE_URL k) = some d)
    (hd : d.authorDescription = none) :
    scrape_author_bio fetch k c = ("", c, [.bio k (urljoin BASE_URL k)]) := by
  simp [scrape_author_bio, h, hf, hd]

theorem sab_of_miss_ok {fetch : String → Option Soup} {k : String} {c : Cache}
    {d : Soup} {t : String} (h : lookupKey k c = none)
    (hf : fetch (urljoin BASE_URL k) = some d) (hd : d.authorDescription = some t) :
    scrape_author_bio fetch k c = (t, (k, t) :: c, [.bio k (urljoin BASE_URL k)]) := by
  simp [scrape_author_bio, h, hf, hd]

theorem sab_cache_cases (fetch : String → Option Soup) (k : String) (c : Cache) :
    (scrape_author_bio fetch k c).2.1 = c ∨
      (lookupKey k c = none ∧
        (scrape_author_bio fetch k c).2.1 = (k, (scrape_author_bio fetch k c).1) :: c) := by
  cases h : lookupKey k c with
  | some v => rw [sab_of_hit h]; exact Or.inl rfl
  | none =>
    cases hf : fetch (urljoin BASE_URL k) with
    | none => rw [sab_of_miss_fail h hf]; exact Or.inl rfl
    | some d =>
      cases hd : d.authorDescription with
      | none => rw [sab_of_miss_nodesc h hf hd]; exact Or.inl rfl
      | some t => rw [sab_of_miss_ok h hf hd]; exact Or.inr ⟨rfl, rfl⟩

theorem sab_preserves_lookup {fetch : String → Option Soup} {k : String} {c : Cache}
    {k' v' : String} (h : lookupKey k' c = some v') :
    lookupKey k' (scrape_author_bio fetch k c).2.1 = some v' := by
  rcases sab_cache_cases fetch k c with hc | ⟨hm, hc⟩
  · rw [hc, h]
  · rw [hc]
    have hne : k' ≠ k := by
      intro he; rw [he, hm] at h; exact Option.noConfusion h
    rw [lookupKey_cons_of_ne _ _ hne, h]

end Scrape

namespace Scrape

/-! ### Claims about `scrape_author_bio` -/

/-- C5: after a successful first resolution of key `k` (the key ends up
present in the returned cache), a second `scrape_author_bio` call for
`k` performs zero fetches (empty event list) and returns the identical
biography with the cache unchanged. -/
theorem C5_resolve_idempotent (fetch : String → Option Soup) (k b : String)
    (c c' : Cache) (evs : List FetchEv)
    (h1 : scrape_author_bio fetch k c = (b, c', evs))
    (h2 : (lookupKey k c').isSome) :
    scrape_author_bio fetch k c' = (b, c', []) := by
  cases hL : lookupKey k c with
  | some v =>
    rw [sab_of_hit hL] at h1
    injection h1 with hb h1
    injection h1 with hc he
    subst hb; subst hc
    exact sab_of_hit hL
  | none =>
    cases hf : fetch (urljoin BASE_URL k) with
    | none =>
      rw [sab_of_miss_fail hL hf] at h1
      injection h1 with hb h1
      injection h1 with hc he
      subst hc
      rw [hL] at h2
      exact absurd h2 (by simp)
    | some d =>
      cases hd : d.authorDescription with
      | none =>
        rw [sab_of_miss_nodesc hL hf hd] at h1
        injection h1 with hb h1
        injection h1 with hc he
        subst hc
        rw [hL] at h2
        exact absurd h2 (by simp)
      | some t =>
        rw [sab_of_miss_ok hL hf hd] at h1
        injection h1 with hb h1
        injection h1 with hc he
        subst hb; subst hc
        exact sab_of_hit (lookupKey_cons_self k t c)

/-- C5 witness: the theorem applied after a concrete successful first
resolution of `"/author/K5"` from the empty cache. -/
theorem C5_witness :
    scrape_author_bio fetchW5 "/author/K5" [("/author/K5", "B5")]
      = ("B5", [("/author/K5", "B5")], []) :=
  C5_resolve_idempotent fetchW5 "/author/K5" "B5" [] [("/author/K5", "B5")]
    [.bio "/author/K5" (urljoin BASE_URL "/author/K5")] (by decide) (by decide)

/-- C6: on a cache miss whose bio-page fetch fails, `scrape_author_bio`
returns the empty string, leaves the cache unchanged and logs the one
failed fetch; a second reference to the same key on the resulting cache
performs the fetch again (same failed fetch event), i.e. the failure is
not cached and the key is retried. -/
theorem C6_failure_not_cached (fetch : String → Option Soup) (k : String) (c : Cache)
    (h1 : lookupKey k c = none) (h2 : fetch (urljoin BASE_URL k) = none) :
    scrape_author_bio fetch k c = ("", c, [.bio k (urljoin BASE_URL k)]) ∧
    scrape_author_bio fetch k (scrape_author_bio fetch k c).2.1
      = ("", c, [.bio k (urljoin BASE_URL k)]) := by
  have h : scrape_author_bio fetch k c = ("", c, [.bio k (urljoin BASE_URL k)]) :=
    sab_of_miss_fail h1 h2
  refine ⟨h, ?_⟩
  rw [h]
  exact sab_of_miss_fail h1 h2

/-- C6 witness: the theorem at key `"/author/K6"` and the empty cache. -/
theorem C6_witness :
    scrape_author_bio fetchW6 "/author/K6" []
        = ("", [], [.bio "/author/K6" (urljoin BASE_URL "/author/K6")]) ∧
      scrape_author_bio fetchW6 "/author/K6" (scrape_author_bio fetchW6 "/author/K6" []).2.1
        = ("", [], [.bio "/author/K6" (urljoin BASE_URL "/author/K6")]) :=
  C6_failure_not_cached fetchW6 "/author/K6" [] (by decide) (by decide)

/-- C9: the cache key is the raw scraped href: two syntactically
different keys (even if they denote the same author) are distinct cache
entries, and resolving the second right after the first still performs
its own fetch and adds its own entry. -/
theorem C9_raw_key_no_normalization (fetch : String → Option Soup)
    (k1 k2 t1 t2 : String) (c : Cache) (d1 d2 : Soup) (hne : k1 ≠ k2)
    (h1 : lookupKey k1 c = none) (h2 : lookupKey k2 c = none)
    (hf1 : fetch (urljoin BASE_URL k1) = some d1)
    (hd1 : d1.authorDescription = some t1)
    (hf2 : fetch (urljoin BASE_URL k2) = some d2)
    (hd2 : d2.authorDescription = some t2) :
    scrape_author_bio fetch k1 c = (t1, (k1, t1) :: c, [.bio k1 (urljoin BASE_URL k1)]) ∧
    scrape_author_bio fetch k2 ((k1, t1) :: c)
      = (t2, (k2, t2) :: (k1, t1) :: c, [.bio k2 (urljoin BASE_URL k2)]) := by
  refine ⟨sab_of_miss_ok h1 hf1 hd1, sab_of_miss_ok ?_ hf2 hd2⟩
  rw [lookupKey_cons_of_ne _ _ (Ne.symm hne), h2]

/-- C9 witness: `"/author/Albert-Einstein"` and
`"/author/Albert-Einstein/"` (same author, trailing slash) are cached
separately and each triggers its own fetch. -/
theorem C9_witness :
    scrape_author_bio fetchW9 "/author/Albert-Einstein" []
        = ("bioA", [("/author/Albert-Einstein", "bioA")],
            [.bio "/author/Albert-Einstein" (urljoin BASE_URL "/author/Albert-Einstein")]) ∧
      scrape_author_bio fetchW9 "/author/Albert-Einstein/"
          [("/author/Albert-Einstein", "bioA")]
        = ("bioA", [("/author/Albert-Einstein/", "bioA"), ("/author/Albert-Einstein", "bioA")],
            [.bio "/author/Albert-Einstein/" (urljoin BASE_URL "/author/Albert-Einstein/")]) :=
  C9_raw_key_no_normalization fetchW9 "/author/Albert-Einstein" "/author/Albert-Einstein/"
    "bioA" "bioA" [] ⟨[], none, some "bioA"⟩ ⟨[], none, some "bioA"⟩
    (by decide) (by decide) (by decide) (by decide) (by decide) (by decide) (by decide)

/-- C10: every `scrape_author_bio` call either leaves the cache
unchanged or, when the queried key was absent, conses exactly the one
new entry for that key; and every existing mapping is preserved
unchanged. -/
theorem C10_cache_monotone (fetch : String → Option Soup) (k : String) (c : Cache) :
    ((scrape_author_bio fetch k c).2.1 = c ∨
      (lookupKey k c = none ∧
        (scrape_author_bio fetch k c).2.1 = (k, (scrape_author_bio fetch k c).1) :: c)) ∧
    (∀ k' v', lookupKey k' c = some v' →
      lookupKey k' (scrape_author_bio fetch k c).2.1 = some v') :=
  ⟨sab_cache_cases fetch k c, fun _ _ h => sab_preserves_lookup h⟩

end Scrape

namespace Scrape

/-! ### Log lemmas -/

theorem pageEvents_append (l1 l2 : List FetchEv) :
    pageEvents (l1 ++ l2) = pageEvents l1 ++ pageEvents l2 := by
  induction l1 with
  | nil => rfl
  | cons e l ih => cases e <;> simp [pageEvents, ih]

theorem bioKeys_append (l1 l2 : List FetchEv) :
    bioKeys (l1 ++ l2) = bioKeys l1 ++ bioKeys l2 := by
  induction l1 with
  | nil => rfl
  | cons e l ih => cases e <;> simp [bioKeys, ih]

theorem pageEvents_map_page (l : List String) :
    pageEvents (l.map FetchEv.page) = l := by
  induction l with
  | nil => rfl
  | cons u l ih => simp [pageEvents, ih]

theorem bioKeys_map_page (l : List String) :
    bioKeys (l.map FetchEv.page) = [] := by
  induction l with
  | nil => rfl
  | cons u l ih => simp [bioKeys, ih]

theorem chainUrls_length (ref : Nat → String) (j n : Nat) :
    (chainUrls ref j n).length = n := by
  induction n generalizing j with
  | zero => rfl
  | succ n ih => simp [chainUrls, ih]

theorem sab_pageEvents (fetch : String → Option Soup) (k : String) (c : Cache) :
    pageEvents (scrape_author_bio fetch k c).2.2 = [] := by
  cases h : lookupKey k c with
  | some v => rw [sab_of_hit h]; rfl
  | none =>
    cases hf : fetch (urljoin BASE_URL k) with
    | none => rw [sab_of_miss_fail h hf]; rfl
    | some d =>
      cases hd : d.authorDescription with
      | none => rw [sab_of_miss_nodesc h hf hd]; rfl
      | some t => rw [sab_of_miss_ok h hf hd]; rfl

/-! ### `processBlocks` lemmas -/

theorem processBlocks_wf (fetch : String → Option Soup) (bs : List QuoteBlock) :
    ∀ (qs : List Quote) (c : Cache) (log : List FetchEv),
      (∀ b ∈ bs, wellFormedBlock b) →
      ∃ c' log', processBlocks fetch bs qs c log
          = .ok (qs ++ bs.map quoteOfBlock, c', log') ∧
        pageEvents log' = pageEvents log := by
  induction bs with
  | nil => intro qs c log _; exact ⟨c, log, by simp [processBlocks], rfl⟩
  | cons b bs ih =>
    intro qs c log hwf
    have hb := hwf b (List.mem_cons_self b bs)
    obtain ⟨bt, ba, btags, bab⟩ := b
    obtain ⟨t, ht⟩ := Option.isSome_iff_exists.mp hb.1
    obtain ⟨a, ha⟩ := Option.isSome_iff_exists.mp hb.2
    have ht2 : bt = some t := ht
    have ha2 : ba = some a := ha
    clear ht ha hb
    subst ht2; subst ha2
    have hrest : ∀ x ∈ bs, wellFormedBlock x :=
      fun x hx => hwf x (List.mem_cons_of_mem _ hx)
    cases bab with
    | none =>
      obtain ⟨c', log', hpb, hpe⟩ := ih (qs ++ [⟨t, a, btags⟩]) c log hrest
      refine ⟨c', log', ?_, hpe⟩
      simp only [processBlocks]
      rw [hpb]
      simp [quoteOfBlock]
    | some rel =>
      obtain ⟨c', log', hpb, hpe⟩ :=
        ih (qs ++ [⟨t, a, btags⟩]) (scrape_author_bio fetch rel c).2.1
          (log ++ (scrape_author_bio fetch rel c).2.2) hrest
      refine ⟨c', log', ?_, ?_⟩
      · simp only [processBlocks]
        rw [hpb]
        simp [quoteOfBlock]
      · rw [hpe, pageEvents_append, sab_pageEvents]
        simp

theorem processBlocks_plain (fetch : String → Option Soup) (bs : List QuoteBlock) :
    ∀ (qs : List Quote) (c : Cache) (log : List FetchEv),
      (∀ b ∈ bs, wellFormedBlock b ∧ b.aboutHref = none) →
      processBlocks fetch bs qs c log = .ok (qs ++ bs.map quoteOfBlock, c, log) := by
  induction bs with
  | nil => intro qs c log _; simp [processBlocks]
  | cons b bs ih =>
    intro qs c log hp
    have hb := hp b (List.mem_cons_self b bs)
    obtain ⟨bt, ba, btags, bab⟩ := b
    obtain ⟨t, ht⟩ := Option.isSome_iff_exists.mp hb.1.1
    obtain ⟨a, ha⟩ := Option.isSome_iff_exists.mp hb.1.2
    have ht2 : bt = some t := ht
    have ha2 : ba = some a := ha
    have hab2 : bab = none := hb.2
    clear ht ha hb
    subst ht2; subst ha2; subst hab2
    have hrest : ∀ x ∈ bs, wellFormedBlock x ∧ x.aboutHref = none :=
      fun x hx => hp x (List.mem_cons_of_mem _ hx)
    have h2 := ih (qs ++ [⟨t, a, btags⟩]) c log hrest
    simp only [processBlocks]
    rw [h2]
    simp [quoteOfBlock]

theorem processBlocks_ok_iff (fetch : String → Option Soup) (bs : List QuoteBlock) :
    ∀ (qs : List Quote) (c : Cache) (log : List FetchEv),
      (∃ r, processBlocks fetch bs qs c log = .ok r) ↔ ∀ b ∈ bs, wellFormedBlock b := by
  induction bs with
  | nil => intro qs c log; simp [processBlocks]
  | cons b bs ih =>
    intro qs c log
    obtain ⟨bt, ba, btags, bab⟩ := b
    cases bt with
    | none =>
      simp only [processBlocks]
      constructor
      · rintro ⟨r, hr⟩; exact absurd hr (by simp)
      · intro h
        have := (h _ (List.mem_cons_self _ bs)).1
        simp [wellFormedBlock] at this
    | some t =>
      cases ba with
      | none =>
        simp only [processBlocks]
        constructor
        · rintro ⟨r, hr⟩; exact absurd hr (by simp)
        · intro h
          have := (h _ (List.mem_cons_self _ bs)).2
          simp [wellFormedBlock] at this
      | some a =>
        cases bab with
        | none =>
          simp only [processBlocks]
          rw [ih]
          simp [wellFormedBlock]
        | some rel =>
          simp only [processBlocks]
          rw [ih]
          simp [wellFormedBlock]

end Scrape

namespace Scrape

/-! ### Claims about extraction -/

/-- C3 counterexample: on a page of three blocks whose second lacks the
`.text` element, the run does not skip the block — it aborts with an
uncaught `AttributeError` after only the page fetch, producing no
records at all (not the two well-formed ones the claim promises) and no
`MalformedBlock` diagnostic. -/
theorem C3_counterexample :
    crawl fetchC3 2 = .raised [.page (urljoin BASE_URL "/page/1/")] := by decide

/-- C3 amended: extraction is not best-effort — it raises precisely when
some block lacks its required text or author field.  `processBlocks`
returns a result (never raises) if and only if every block carries both
required fields; a single malformed block aborts the whole run. -/
theorem C3_raises_iff_malformed (fetch : String → Option Soup) (bs : List QuoteBlock)
    (qs : List Quote) (c : Cache) (log : List FetchEv) :
    (∃ r, processBlocks fetch bs qs c log = .ok r) ↔ ∀ b ∈ bs, wellFormedBlock b :=
  processBlocks_ok_iff fetch bs qs c log

/-- C7: a page of `N` well-formed blocks yields exactly the `N` records
`bs.map quoteOfBlock`, appended in document order; `quoteOfBlock`
carries each block's tag list verbatim (order and duplicates
preserved). -/
theorem C7_extraction_in_order (fetch : String → Option Soup) (bs : List QuoteBlock)
    (qs : List Quote) (c : Cache) (log : List FetchEv)
    (h : ∀ b ∈ bs, wellFormedBlock b) :
    ∃ c' log', processBlocks fetch bs qs c log
        = .ok (qs ++ bs.map quoteOfBlock, c', log') ∧
      (bs.map quoteOfBlock).length = bs.length ∧
      ∀ b ∈ bs, (quoteOfBlock b).tags = b.tags := by
  obtain ⟨c', log', hpb, _⟩ := processBlocks_wf fetch bs qs c log h
  exact ⟨c', log', hpb, by simp, fun b _ => rfl⟩

/-- C7 witness: a concrete page of two well-formed blocks, the first
with a duplicated tag, extracted from the empty accumulator under the
all-failing oracle. -/
theorem C7_witness :
    ∃ c' log', processBlocks fetchW6
        [⟨some "q1", some "a1", ["t", "t", "u"], none⟩,
         ⟨some "q2", some "a2", [], some "/author/a2"⟩] [] [] []
        = .ok ([] ++ [⟨some "q1", some "a1", ["t", "t", "u"], none⟩,
            ⟨some "q2", some "a2", [], some "/author/a2"⟩].map quoteOfBlock, c', log') ∧
      ([⟨some "q1", some "a1", ["t", "t", "u"], (none : Option String)⟩,
        ⟨some "q2", some "a2", [], some "/author/a2"⟩].map quoteOfBlock).length = 2 ∧
      ∀ b ∈ [⟨some "q1", some "a1", ["t", "t", "u"], (none : Option String)⟩,
        ⟨some "q2", some "a2", [], some "/author/a2"⟩], (quoteOfBlock b).tags = b.tags :=
  C7_extraction_in_order fetchW6
    [⟨some "q1", some "a1", ["t", "t", "u"], none⟩,
     ⟨some "q2", some "a2", [], some "/author/a2"⟩] [] [] [] (by decide)

end Scrape

namespace Scrape

/-! ### The single-flight invariant (C1) -/

theorem lookupKey_cons_isSome {k' : String} (k v : String) {c : Cache}
    (h : (lookupKey k' c).isSome) : (lookupKey k' ((k, v) :: c)).isSome := by
  by_cases he : k' = k
  · subst he; simp [lookupKey]
  · simpa [lookupKey, he] using h

theorem sab_cacheInv {fetch : String → Option Soup} (hg : goodOracle fetch)
    (k : String) {c : Cache} {log : List FetchEv} (hInv : cacheInv c log) :
    cacheInv (scrape_author_bio fetch k c).2.1
      (log ++ (scrape_author_bio fetch k c).2.2) := by
  cases h : lookupKey k c with
  | some v => rw [sab_of_hit h]; simpa using hInv
  | none =>
    obtain ⟨d, t, hf, hd⟩ := hg (urljoin BASE_URL k)
    rw [sab_of_miss_ok h hf hd]
    constructor
    · rw [bioKeys_append]
      rw [List.nodup_append]
      refine ⟨hInv.1, List.nodup_singleton k, ?_⟩
      intro x hx hk
      have hxk : x = k := by simpa [bioKeys] using hk
      subst hxk
      have := hInv.2 x hx
      rw [h] at this
      exact absurd this (by simp)
    · intro k' hk'
      rw [bioKeys_append] at hk'
      rcases List.mem_append.mp hk' with h1 | h2
      · exact lookupKey_cons_isSome k t (hInv.2 k' h1)
      · have hk2 : k' = k := by simpa [bioKeys] using h2
        subst hk2
        rw [lookupKey_cons_self]
        rfl

theorem processBlocks_cacheInv {fetch : String → Option Soup} (hg : goodOracle fetch)
    (bs : List QuoteBlock) :
    ∀ (qs : List Quote) (c : Cache) (log : List FetchEv), cacheInv c log →
      pbInv (processBlocks fetch bs qs c log) := by
  induction bs with
  | nil => intro qs c log h; exact h
  | cons b bs ih =>
    intro qs c log h
    obtain ⟨bt, ba, btags, bab⟩ := b
    cases bt with
    | none => exact h.1
    | some t =>
      cases ba with
      | none => exact h.1
      | some a =>
        cases bab with
        | none => exact ih _ _ _ h
        | some rel => exact ih _ _ _ (sab_cacheInv hg rel h)

theorem cacheInv_page {c : Cache} {log : List FetchEv} (u : String)
    (h : cacheInv c log) : cacheInv c (log ++ [.page u]) := by
  have hb : bioKeys (log ++ [.page u]) = bioKeys log := by
    rw [bioKeys_append]; simp [bioKeys]
  unfold cacheInv
  rw [hb]
  exact h

theorem crawlLoop_cacheInv {fetch : String → Option Soup} (hg : goodOracle fetch) :
    ∀ (fuel : Nat) (cur : Option String) (qs : List Quote) (c : Cache)
      (log : List FetchEv), cacheInv c log →
      (bioKeys (Outcome.log (crawlLoop fetch fuel cur qs c log))).Nodup := by
  intro fuel
  induction fuel with
  | zero =>
    intro cur qs c log h
    cases cur with
    | none => exact h.1
    | some s =>
      by_cases hs : s = "" <;> simp [crawlLoop, hs, Outcome.log] <;> exact h.1
  | succ fuel ih =>
    intro cur qs c log h
    cases cur with
    | none => exact h.1
    | some s =>
      by_cases hs : s = ""
      · simp only [crawlLoop, if_pos hs]; exact h.1
      · have hInv2 : cacheInv c (log ++ [.page (urljoin BASE_URL s)]) :=
          cacheInv_page _ h
        cases hfetch : fetch (urljoin BASE_URL s) with
        | none =>
          simp only [crawlLoop, if_neg hs, hfetch, Outcome.log]
          exact hInv2.1
        | some soup =>
          have hpb := processBlocks_cacheInv hg soup.quoteBlocks qs c
            (log ++ [.page (urljoin BASE_URL s)]) hInv2
          cases hres : processBlocks fetch soup.quoteBlocks qs c
              (log ++ [.page (urljoin BASE_URL s)]) with
          | error elog =>
            simp only [crawlLoop, if_neg hs, hfetch, hres, Outcome.log]
            rw [hres] at hpb
            exact hpb
          | ok r =>
            obtain ⟨qs', c', log'⟩ := r
            simp only [crawlLoop, if_neg hs, hfetch, hres]
            rw [hres] at hpb
            exact ih _ _ _ _ hpb

/-- C1 counterexample: on `fetchC1` (one page, two blocks referencing
`"/author/Dup"`, whose detail page fails to fetch) the crawl invokes
`get_soup` twice for that one author's detail address — the unqualified
at-most-once claim is false. -/
theorem C1_counterexample :
    List.count (urljoin BASE_URL "/author/Dup")
      (bioUrls (Outcome.log (crawl fetchC1 2))) = 2 := by decide

/-- C1 amended: across one crawl run, `scrape_author_bio` invokes
`get_soup` at most once per author key — provided every bio fetch
succeeds with a truthy author-description element (`goodOracle`).  When
a key's resolution fails nothing is cached and a later reference to the
same key fetches again (see the counterexample and C6), so the
unconditional claim does not hold. -/
theorem C1_single_flight (fetch : String → Option Soup) (fuel : Nat)
    (hg : goodOracle fetch) :
    (bioKeys (Outcome.log (crawl fetch fuel))).Nodup :=
  crawlLoop_cacheInv hg fuel (some "/page/1/") [] [] []
    ⟨List.nodup_nil, by intro k hk; simp [bioKeys] at hk⟩

/-- C1 witness: the single-flight theorem at the concrete all-succeeding
oracle `fetchW1`. -/
theorem C1_witness : (bioKeys (Outcome.log (crawl fetchW1 3))).Nodup :=
  C1_single_flight fetchW1 3 (fun _ => ⟨⟨[], none, some "bio"⟩, "bio", rfl, rfl⟩)

end Scrape

namespace Scrape

/-! ### Loop termination and chain lemmas (C2, C4, C8) -/

theorem crawlLoop_empty_cursor (fetch : String → Option Soup) (fuel : Nat)
    (qs : List Quote) (c : Cache) (log : List FetchEv) :
    crawlLoop fetch fuel (some "") qs c log = .done qs c log (some "") := by
  cases fuel <;> simp [crawlLoop]

/-- C8: a page whose `li.next a` element is present with an empty href
is terminal: the loop processes the page (one page fetch, its records
appended) and then exits, because Python's `while current_page:` is
false for the empty string. -/
theorem C8_empty_next_terminal (fetch : String → Option Soup) (fuel : Nat)
    (s : String) (d : Soup) (qs : List Quote) (c : Cache) (log : List FetchEv)
    (hs : s ≠ "") (hf : fetch (urljoin BASE_URL s) = some d)
    (hn : d.nextHref = some "")
    (hwf : ∀ b ∈ d.quoteBlocks, wellFormedBlock b) :
    ∃ c' log',
      crawlLoop fetch (fuel + 1) (some s) qs c log
          = .done (qs ++ d.quoteBlocks.map quoteOfBlock) c' log' (some "") ∧
        pageEvents log' = pageEvents log ++ [urljoin BASE_URL s] := by
  obtain ⟨c', log', hpb, hpe⟩ := processBlocks_wf fetch d.quoteBlocks qs c
    (log ++ [.page (urljoin BASE_URL s)]) hwf
  refine ⟨c', log', ?_, ?_⟩
  · simp only [crawlLoop, if_neg hs, hf, hpb, hn]
    exact crawlLoop_empty_cursor fetch fuel _ c' log'
  · rw [hpe, pageEvents_append]
    simp [pageEvents]

/-- C8 witness: the theorem at the concrete one-page oracle `fetchW8`. -/
theorem C8_witness :
    ∃ c' log',
      crawlLoop fetchW8 (2 + 1) (some "/page/1/") [] [] []
          = .done ([] ++ pageW8.quoteBlocks.map quoteOfBlock) c' log' (some "") ∧
        pageEvents log' = pageEvents [] ++ [urljoin BASE_URL "/page/1/"] :=
  C8_empty_next_terminal fetchW8 2 "/page/1/" pageW8 [] [] []
    (by decide) (by decide) (by decide) (by decide)

theorem chainRun (fetch : String → Option Soup) (ref : Nat → String)
    (docs : Nat → Soup) (M : Nat)
    (hRef : ∀ j, 1 ≤ j → j ≤ M → ref j ≠ "")
    (hFetch : ∀ j, 1 ≤ j → j ≤ M → fetch (urljoin BASE_URL (ref j)) = some (docs j))
    (hBlocks : ∀ j, 1 ≤ j → j ≤ M →
      ∀ b ∈ (docs j).quoteBlocks, wellFormedBlock b ∧ b.aboutHref = none)
    (hNext : ∀ j, 1 ≤ j → j < M → (docs j).nextHref = some (ref (j + 1)))
    (hLast : (docs M).nextHref = none) :
    ∀ (n j fuel : Nat) (qs : List Quote) (c : Cache) (log : List FetchEv),
      1 ≤ j → j + n = M → n + 1 ≤ fuel →
      crawlLoop fetch fuel (some (ref j)) qs c log
        = .done (qs ++ chainQuotes docs j (n + 1)) c
            (log ++ (chainUrls ref j (n + 1)).map FetchEv.page) none := by
  intro n
  induction n with
  | zero =>
    intro j fuel qs c log hj hjM hfuel
    have hjM2 : j = M := by omega
    subst hjM2
    obtain ⟨fuel', rfl⟩ : ∃ f, fuel = f + 1 := ⟨fuel - 1, by omega⟩
    have hne := hRef j hj (le_refl j)
    have hpb := processBlocks_plain fetch (docs j).quoteBlocks qs c
      (log ++ [.page (urljoin BASE_URL (ref j))]) (hBlocks j hj (le_refl j))
    simp only [crawlLoop, if_neg hne, hFetch j hj (le_refl j), hpb, hLast]
    simp [crawlLoop, chainQuotes, chainUrls, quotesOf]
  | succ n ih =>
    intro j fuel qs c log hj hjM hfuel
    have hjM2 : j < M := by omega
    obtain ⟨fuel', rfl⟩ : ∃ f, fuel = f + 1 := ⟨fuel - 1, by omega⟩
    have hne := hRef j hj (by omega)
    have hpb := processBlocks_plain fetch (docs j).quoteBlocks qs c
      (log ++ [.page (urljoin BASE_URL (ref j))]) (hBlocks j hj (by omega))
    have hstep := ih (j + 1) fuel' (qs ++ (docs j).quoteBlocks.map quoteOfBlock) c
      (log ++ [.page (urljoin BASE_URL (ref j))]) (by omega) (by omega) (by omega)
    simp only [crawlLoop, if_neg hne, hFetch j hj (by omega), hpb, hNext j hj hjM2]
    rw [hstep]
    simp [chainQuotes, chainUrls, quotesOf]

theorem chainFail (fetch : String → Option Soup) (ref : Nat → String)
    (docs : Nat → Soup) (i : Nat)
    (hRef : ∀ j, 1 ≤ j → j ≤ i → ref j ≠ "")
    (hFetch : ∀ j, 1 ≤ j → j < i → fetch (urljoin BASE_URL (ref j)) = some (docs j))
    (hBlocks : ∀ j, 1 ≤ j → j < i →
      ∀ b ∈ (docs j).quoteBlocks, wellFormedBlock b ∧ b.aboutHref = none)
    (hNext : ∀ j, 1 ≤ j → j < i → (docs j).nextHref = some (ref (j + 1)))
    (hFail : fetch (urljoin BASE_URL (ref i)) = none) :
    ∀ (n j fuel : Nat) (qs : List Quote) (c : Cache) (log : List FetchEv),
      1 ≤ j → j + n = i → n + 1 ≤ fuel →
      crawlLoop fetch fuel (some (ref j)) qs c log
        = .fetchFail (qs ++ chainQuotes docs j n) c
            (log ++ (chainUrls ref j (n + 1)).map FetchEv.page)
            (urljoin BASE_URL (ref i)) := by
  intro n
  induction n with
  | zero =>
    intro j fuel qs c log hj hjM hfuel
    have hjM2 : j = i := by omega
    subst hjM2
    obtain ⟨fuel', rfl⟩ : ∃ f, fuel = f + 1 := ⟨fuel - 1, by omega⟩
    have hne := hRef j hj (le_refl j)
    simp only [crawlLoop, if_neg hne, hFail]
    simp [chainQuotes, chainUrls]
  | succ n ih =>
    intro j fuel qs c log hj hjM hfuel
    have hjM2 : j < i := by omega
    obtain ⟨fuel', rfl⟩ : ∃ f, fuel = f + 1 := ⟨fuel - 1, by omega⟩
    have hne := hRef j hj (by omega)
    have hpb := processBlocks_plain fetch (docs j).quoteBlocks qs c
      (log ++ [.page (urljoin BASE_URL (ref j))]) (hBlocks j hj hjM2)
    have hstep := ih (j + 1) fuel' (qs ++ (docs j).quoteBlocks.map quoteOfBlock) c
      (log ++ [.page (urljoin BASE_URL (ref j))]) (by omega) (by omega) (by omega)
    simp only [crawlLoop, if_neg hne, hFetch j hj hjM2, hpb, hNext j hj hjM2]
    rw [hstep]
    simp [chainQuotes, chainUrls, quotesOf]

end Scrape

namespace Scrape

/-- C4: crawling a chain of `M ≥ 1` pages, pages `1..M-1` each carrying
a "next" reference and page `M` none, performs exactly `M` page fetches
(the page-fetch log is the `M` chain URLs) and terminates with the
cursor absent (`none`). -/
theorem C4_chain_of_M_terminates (fetch : String → Option Soup) (ref : Nat → String)
    (docs : Nat → Soup) (M fuel : Nat) (hM : 1 ≤ M) (hfuel : M ≤ fuel)
    (hStart : ref 1 = "/page/1/")
    (hRef : ∀ j, 1 ≤ j → j ≤ M → ref j ≠ "")
    (hFetch : ∀ j, 1 ≤ j → j ≤ M → fetch (urljoin BASE_URL (ref j)) = some (docs j))
    (hBlocks : ∀ j, 1 ≤ j → j ≤ M →
      ∀ b ∈ (docs j).quoteBlocks, wellFormedBlock b ∧ b.aboutHref = none)
    (hNext : ∀ j, 1 ≤ j → j < M → (docs j).nextHref = some (ref (j + 1)))
    (hLast : (docs M).nextHref = none) :
    crawl fetch fuel
        = .done (chainQuotes docs 1 M) [] ((chainUrls ref 1 M).map FetchEv.page) none ∧
      (pageEvents (Outcome.log (crawl fetch fuel))).length = M := by
  have h := chainRun fetch ref docs M hRef hFetch hBlocks hNext hLast
    (M - 1) 1 fuel [] [] [] (le_refl 1) (by omega) (by omega)
  have hM1 : M - 1 + 1 = M := by omega
  rw [hM1] at h
  have h2 : crawl fetch fuel
      = .done (chainQuotes docs 1 M) [] ((chainUrls ref 1 M).map FetchEv.page) none := by
    unfold crawl
    rw [← hStart]
    simpa using h
  refine ⟨h2, ?_⟩
  rw [h2]
  simp [Outcome.log, pageEvents_map_page, chainUrls_length]

/-- C4 witness: the theorem at the concrete chain `refW4`/`docsW4` of
length 2 with fuel 5. -/
theorem C4_witness :
    crawl fetchW4 5
        = .done (chainQuotes docsW4 1 2) []
            ((chainUrls refW4 1 2).map FetchEv.page) none ∧
      (pageEvents (Outcome.log (crawl fetchW4 5))).length = 2 :=
  C4_chain_of_M_terminates fetchW4 refW4 docsW4 2 5 (by omega) (by omega) (by decide)
    (by intro j h1 h2; interval_cases j <;> decide)
    (by intro j h1 h2; interval_cases j <;> decide)
    (by intro j h1 h2; interval_cases j <;> decide)
    (by intro j h1 h2; interval_cases j <;> decide)
    (by decide)

/-- C2: if page `i` of a chain fails to fetch, the crawl stops there:
the outcome is `fetchFail` carrying the records of pages `1..i-1`, the
page-fetch log holds exactly the URLs of pages `1..i` (pages after `i`
are never attempted), and the failing page's address is reported (the
`Error fetching {url}` diagnostic printed by `get_soup` before `main`
breaks); the accumulated records are preserved and still written. -/
theorem C2_page_failure_preserves_partial (fetch : String → Option Soup)
    (ref : Nat → String) (docs : Nat → Soup) (i fuel : Nat)
    (hi : 1 ≤ i) (hfuel : i ≤ fuel) (hStart : ref 1 = "/page/1/")
    (hRef : ∀ j, 1 ≤ j → j ≤ i → ref j ≠ "")
    (hFetch : ∀ j, 1 ≤ j → j < i → fetch (urljoin BASE_URL (ref j)) = some (docs j))
    (hBlocks : ∀ j, 1 ≤ j → j < i →
      ∀ b ∈ (docs j).quoteBlocks, wellFormedBlock b ∧ b.aboutHref = none)
    (hNext : ∀ j, 1 ≤ j → j < i → (docs j).nextHref = some (ref (j + 1)))
    (hFail : fetch (urljoin BASE_URL (ref i)) = none) :
    crawl fetch fuel
      = .fetchFail (chainQuotes docs 1 (i - 1)) []
          ((chainUrls ref 1 i).map FetchEv.page) (urljoin BASE_URL (ref i)) := by
  have h := chainFail fetch ref docs i hRef hFetch hBlocks hNext hFail
    (i - 1) 1 fuel [] [] [] (le_refl 1) (by omega) (by omega)
  have hi1 : i - 1 + 1 = i := by omega
  rw [hi1] at h
  unfold crawl
  rw [← hStart]
  simpa using h

/-- C2 witness: the theorem at the concrete chain `refW2`/`docsW2` where
page 2 fails: the records of page 1 are preserved and page 2's address
is the diagnostic. -/
theorem C2_witness :
    crawl fetchW2 5
      = .fetchFail (chainQuotes docsW2 1 1) []
          ((chainUrls refW2 1 2).map FetchEv.page) (urljoin BASE_URL (refW2 2)) :=
  C2_page_failure_preserves_partial fetchW2 refW2 docsW2 2 5 (by omega) (by omega)
    (by decide)
    (by intro j h1 h2; interval_cases j <;> decide)
    (by intro j h1 h2; interval_cases j <;> decide)
    (by intro j h1 h2; interval_cases j <;> decide)
    (by intro j h1 h2; interval_cases j <;> decide)
    (by decide)

end Scrape
